import Mathlib

/-!
Verification of the ollama-mesh coordination core: a shallow embedding of
the peer registry (discovery), the broadcast/leader-election aggregation
(repl), the sandboxed executor result shaping (executor), the heartbeat
scheduler loop (heartbeat), and the exec request handler (peer), together
with theorems settling the specification claims.
-/

namespace Mesh

/-! ## Data model (discovery.py) -/

/-- `PeerInfo` dataclass from discovery.py: registry entry for one peer. -/
structure PeerInfo where
  name : String
  host : String
  port : Nat
  model : String
  skills : List String
deriving DecidableEq, Repr

/-- The mDNS service type constant `SERVICE_TYPE`. -/
def SERVICE_TYPE : String := "_ollama-mesh._tcp.local."

/-! ### Python dict operations, modelled on insertion-ordered association
lists keyed by `String` (Python 3.7+ dicts preserve insertion order; an
existing key keeps its position and gets its value overwritten). -/

/-- `d[k]` / `k in d`: lookup by key. -/
def dictLookup (m : List (String × α)) (k : String) : Option α :=
  match m with
  | [] => none
  | kv :: rest => if kv.1 = k then some kv.2 else dictLookup rest k

/-- `d[k] = v`: overwrite in place if present, else append. -/
def dictInsert (m : List (String × α)) (k : String) (v : α) : List (String × α) :=
  match m with
  | [] => [(k, v)]
  | kv :: rest => if kv.1 = k then (k, v) :: rest else kv :: dictInsert rest k v

/-- `d.pop(k, None)`: remove the entry for `k` when present, no-op otherwise. -/
def dictPop (m : List (String × α)) (k : String) : List (String × α) :=
  match m with
  | [] => []
  | kv :: rest => if kv.1 = k then rest else kv :: dictPop rest k

/-! ### String helpers mirroring the Python expressions -/

/-- One fuel-indexed pass of Python `str.replace(pat, "")`: removes
non-overlapping occurrences of `pat` left to right.  Each step consumes at
least one character, so fuel = input length suffices. -/
def removeOccFuel (pat : List Char) : Nat → List Char → List Char
  | 0, s => s
  | _ + 1, [] => []
  | fuel + 1, c :: rest =>
      if pat.isPrefixOf (c :: rest) && !pat.isEmpty then
        removeOccFuel pat fuel ((c :: rest).drop pat.length)
      else
        c :: removeOccFuel pat fuel rest

/-- Python `s.replace(pat, "")`. -/
def removeAll (s pat : String) : String :=
  ⟨removeOccFuel pat.data s.data.length s.data⟩

/-- `name.replace(f".{SERVICE_TYPE}", "")`: strip the mesh suffix from an
announced service name. -/
def stripSvc (name : String) : String :=
  removeAll name ("." ++ SERVICE_TYPE)

/-- `props.get(key, default)` over the decoded properties dict. -/
def propsGet (props : List (String × String)) (k d : String) : String :=
  match dictLookup props k with
  | some v => v
  | none => d

/-- Python `s.split(sep)` for a one-character separator: splits on every
occurrence, keeping empty groups (`"".split(",") == [""]`). -/
def splitOnChar (c : Char) : List Char → List (List Char)
  | [] => [[]]
  | a :: rest =>
      let r := splitOnChar c rest
      if a = c then [] :: r
      else
        match r with
        | [] => [[a]]
        | g :: gs => (a :: g) :: gs

/-- Python `s.strip()`: drop leading and trailing whitespace. -/
def pyStrip (l : List Char) : List Char :=
  (((l.dropWhile Char.isWhitespace).reverse).dropWhile Char.isWhitespace).reverse

/-- `[s.strip() for s in raw.split(",") if s.strip()]`: parse the comma
separated skills property. -/
def parseSkills (raw : String) : List String :=
  (((splitOnChar ',' raw.data).map (fun g => String.mk (pyStrip g))).filter
    (fun s => s ≠ ""))

/-! ### Discovery event handling (`Discovery._handle_state_change`)

A `Removed` state change carries only the service name.  Any other state
change (`Added`/`Updated`) triggers a resolution of the announcement
(`AsyncServiceInfo.async_request`, bounded 3 s); the resolved addresses,
port and properties are the payload of the `presence` event below, with an
empty address list standing for a failed resolution. -/

/-- A discovery event, with the resolution result inlined: `removed` is a
withdrawal notice, `presence` is an added/updated announcement carrying its
resolved addresses (`inet_ntoa` strings), `info.port` and decoded
properties. -/
inductive ServiceEvent where
  | removed (name : String)
  | presence (name : String) (addresses : List String) (port : Option Nat)
      (props : List (String × String))
deriving DecidableEq, Repr

/-- The registry map `Discovery.peers`. -/
abbrev Registry := List (String × PeerInfo)

/-- The `PeerInfo` built from a resolved presence announcement. -/
def peerOfAnnouncement (short host : String) (port : Option Nat)
    (props : List (String × String)) : PeerInfo :=
  { name := short
    host := host
    port := port.getD 0
    model := propsGet props "model" ""
    skills := parseSkills (propsGet props "skills" "") }

/-- `Discovery._handle_state_change`: process one discovery event against
the peer map.  Removal pops the suffix-stripped name; a presence event with
no resolved addresses is dropped; a presence event whose stripped name
equals the local node's name is skipped; otherwise the freshly built
`PeerInfo` overwrites the entry. -/
def handleStateChange (nodeName : String) (m : Registry) (e : ServiceEvent) : Registry :=
  match e with
  | .removed name => dictPop m (stripSvc name)
  | .presence name addresses port props =>
      match addresses with
      | [] => m
      | host :: _ =>
          let short := stripSvc name
          if short = nodeName then m
          else dictInsert m short (peerOfAnnouncement short host port props)

/-- Fold a sequence of discovery events over the registry. -/
def processEvents (nodeName : String) (m : Registry) (es : List ServiceEvent) : Registry :=
  es.foldl (handleStateChange nodeName) m

/-! ## Interactive REPL (repl.py) -/

/-- Python case-sensitive code-point comparison of character lists:
`s <= t` in Python string order. -/
def strLeb : List Char → List Char → Bool
  | [], _ => true
  | _ :: _, [] => false
  | a :: as, b :: bs => if a < b then true else if a = b then strLeb as bs else false

/-- Python `s <= t` on strings (lexicographic by code point, case
sensitive). -/
def pyLe (s t : String) : Prop := strLeb s.data t.data = true

instance : DecidableRel pyLe := fun s t => by unfold pyLe; infer_instance

/-- Python tuple comparison on `(name, reply)` pairs, as used by
`sorted(responses.items())`. -/
def pairLeb (p q : String × String) : Bool :=
  if p.1 = q.1 then strLeb p.2.data q.2.data else strLeb p.1.data q.1.data

/-- The relation sorted against for `sorted(responses.items())`. -/
def pairLe (p q : String × String) : Prop := pairLeb p q = true

instance : DecidableRel pairLe := fun p q => by unfold pairLe; infer_instance

/-- Python `sorted` on a list of strings: a stable ascending sort, modelled
by insertion sort under `pyLe`. -/
def pySorted (l : List String) : List String := l.insertionSort pyLe

/-- Python `sorted` on `(name, reply)` pairs. -/
def sortPairs (l : List (String × String)) : List (String × String) :=
  l.insertionSort pairLe

/-- `sorted(responses.keys())[0]`: the elected leader among responder
names. -/
def electLeader (names : List String) : String := (pySorted names).headD ""

/-- Python `s.startswith(pre)`. -/
def pyStartsWith (s pre : String) : Bool := pre.data.isPrefixOf s.data

/-- `MeshREPL._resolve_peer`: exact key lookup first, then prefix matching;
exactly one prefix match resolves, anything else resolves to no peer. -/
def resolvePeer (peers : Registry) (name : String) : Option PeerInfo :=
  match dictLookup peers name with
  | some p => some p
  | none =>
      let found := (peers.filter (fun np => pyStartsWith np.1 name)).map Prod.snd
      if found.length = 1 then found.head? else none

/-- Outcome of `MeshREPL._broadcast_chat`, abstracting the printed
interaction: `synth` records the elected leader, the collected responses
and the synthesis prompt of the extra chat call sent to the leader. -/
inductive Outcome where
  | noPeers
  | allFailed
  | single (name reply : String)
  | synth (leader : String) (responses : List (String × String)) (prompt : String)
deriving DecidableEq, Repr

/-- Number of leader-synthesis chat calls an outcome issues. -/
def synthCalls : Outcome → Nat
  | .synth _ _ _ => 1
  | _ => 0

/-- The `_ask` fan-out: each peer is asked concurrently; an exception is
caught and recorded as `none` (`(peer.name, None)` in the source). -/
def fanOut (peers : List PeerInfo) (ask : PeerInfo → Except String String) :
    List (String × Option String) :=
  peers.map (fun p =>
    (p.name, match ask p with
      | .ok reply => some reply
      | .error _ => none))

/-- One step of building the responses dict: a failed peer (`none`) is
dropped, a reply is inserted under the peer's name. -/
def collectStep (acc : List (String × String)) (nr : String × Option String) :
    List (String × String) :=
  match nr.2 with
  | some r => dictInsert acc nr.1 r
  | none => acc

/-- `responses = {name: reply for name, reply in results if reply is not None}`:
build the responses dict, dropping failed peers. -/
def collectResponses (results : List (String × Option String)) : List (String × String) :=
  results.foldl collectStep []

/-- `"\n".join(f"[{n}]: {r}" for n, r in sorted(responses.items()))`. -/
def respBlock (responses : List (String × String)) : String :=
  String.intercalate "\n"
    ((sortPairs responses).map (fun nr => "[" ++ nr.1 ++ "]: " ++ nr.2))

/-- The synthesis prompt handed to the leader. -/
def aggPrompt (message : String) (responses : List (String × String)) : String :=
  "Multiple peers answered the following question:\n\"" ++ message ++
    "\"\n\nTheir responses:\n" ++ respBlock responses ++
    "\n\nSynthesize these into a single, most accurate response."

/-- `MeshREPL._broadcast_chat` as a function of the fan-out results: no
peers, all failed, a single responder's verbatim reply, or leader
synthesis. -/
def broadcastChat (peers : List PeerInfo) (ask : PeerInfo → Except String String)
    (message : String) : Outcome :=
  if peers.isEmpty then .noPeers
  else
    let responses := collectResponses (fanOut peers ask)
    if responses = [] then .allFailed
    else if responses.length = 1 then
      .single (responses.headD ("", "")).1 (responses.headD ("", "")).2
    else
      .synth (electLeader (responses.map Prod.fst)) (sortPairs responses)
        (aggPrompt message (sortPairs responses))

/-! ## Executor (executor.py) -/

/-- `TIMEOUT_SECONDS = 30`. -/
def TIMEOUT_SECONDS : Nat := 30

/-- `MAX_OUTPUT_BYTES = 64 * 1024`. -/
def MAX_OUTPUT_BYTES : Nat := 64 * 1024

/-- `ExecResult` dataclass. -/
structure ExecResult where
  exit_code : Int
  stdout : String
  stderr : String
deriving DecidableEq, Repr

/-- `ExecResult.ok`: exit code zero. -/
def ExecResult.ok (r : ExecResult) : Bool := r.exit_code == 0

/-- `ExecResult.output`: the stdout on success, otherwise the combined
`STDERR:`/`STDOUT:` failure text. -/
def ExecResult.output (r : ExecResult) : String :=
  if r.ok then r.stdout
  else "STDERR:\n" ++ r.stderr ++ "\nSTDOUT:\n" ++ r.stdout

/-- Outcome of the spawned subprocess, as observed by `run_bash`: either
`communicate()` finished with a return code (`None` while unset) and the
two captured streams, or `wait_for` timed out. -/
inductive ProcOutcome where
  | completed (returncode : Option Int) (stdout stderr : String)
  | timedOut
deriving DecidableEq, Repr

/-- Python `s[:MAX_OUTPUT_BYTES]`: truncation of a decoded stream. -/
def truncOut (s : String) : String := String.mk (s.data.take MAX_OUTPUT_BYTES)

/-- `run_bash`: on timeout, exit code `-1` with the timeout message; on
completion, `returncode or 0` and both streams truncated to the cap. -/
def run_bash (timeout : Nat) (proc : ProcOutcome) : ExecResult :=
  match proc with
  | .timedOut =>
      { exit_code := -1, stdout := ""
        stderr := "Timed out after " ++ toString timeout ++ "s" }
  | .completed rc out err =>
      { exit_code := rc.getD 0, stdout := truncOut out, stderr := truncOut err }

/-- `run_bash(code)` as invoked by the exec handler: the default timeout
`TIMEOUT_SECONDS` applies (`run_python` also ends in this call). -/
def run_bash_default (proc : ProcOutcome) : ExecResult := run_bash TIMEOUT_SECONDS proc

/-- A stream of exactly `MAX_OUTPUT_BYTES` characters: the longest output
the per-stream truncation lets through. -/
def cappedStream : String := String.mk (List.replicate MAX_OUTPUT_BYTES 'a')

/-! ## Exec request handler (peer.py, `PeerServer._handle_exec`) -/

/-- The JSON body of a `POST /exec` request; absent fields are `none`. -/
structure ExecBody where
  lang : Option String
  code : Option String
  sender : Option String
deriving DecidableEq, Repr

/-- Which executor the handler dispatches to. -/
inductive ExecLang where
  | bash
  | python
deriving DecidableEq, Repr

/-- The decoded exec invocation. -/
structure ExecCall where
  chosen : ExecLang
  code : String
  sender : String
deriving DecidableEq, Repr

/-- `PeerServer._handle_exec` request decoding: `body.get("lang", "bash")`,
`body.get("code", "")`, `body.get("from", "unknown")`; exactly the tag
`"python"` selects the python executor, anything else runs bash. -/
def handleExec (b : ExecBody) : ExecCall :=
  let lang := b.lang.getD "bash"
  let code := b.code.getD ""
  let sender := b.sender.getD "unknown"
  { chosen := if lang = "python" then .python else .bash
    code := code
    sender := sender }

/-! ## Heartbeat scheduler (heartbeat.py)

`croniter(ht.schedule, now)` with its successive `get_next` calls is
modelled by an abstract iterator-advance function `cronNext : Nat → Nat`
on an abstract clock; the completion-provider call of each firing is an
oracle `body : Nat → Except String String` indexed by tick number, and the
wall-clock duration of each firing is `busy : Nat → Nat`. -/

/-- `HeartbeatTask` dataclass from config.py. -/
structure HeartbeatTask where
  name : String
  schedule : String
  prompt : String
  broadcast : Bool
deriving DecidableEq, Repr

/-- What one firing recorded: the reply, or the caught-and-logged
exception. -/
inductive TickResult where
  | ok (reply : String)
  | failed (err : String)
deriving DecidableEq, Repr

/-- The `try/except` around one firing: an exception is caught and logged,
never propagated. -/
def fireTick (res : Except String String) : TickResult :=
  match res with
  | .ok r => .ok r
  | .error e => .failed e

/-- One recorded loop iteration: the clock when `get_next` was computed,
the computed next fire time, the wake-up time actually slept to, and the
firing's result. -/
structure TickEntry where
  nowAt : Nat
  next : Nat
  wake : Nat
  result : TickResult
deriving DecidableEq, Repr

/-- `HeartbeatScheduler._run_loop`, fuel-bounded: each iteration advances
the cron iterator from its previous position `pos`, sleeps only when the
computed time is still ahead of the clock (`delay > 0`), fires the body,
and loops with the clock advanced by the firing's duration. -/
def runLoop (cronNext : Nat → Nat) (body : Nat → Except String String) (busy : Nat → Nat) :
    Nat → Nat → Nat → Nat → List TickEntry
  | 0, _, _, _ => []
  | fuel + 1, pos, now, tick =>
      let next := cronNext pos
      let wake := max now next
      { nowAt := now, next := next, wake := wake, result := fireTick (body tick) } ::
        runLoop cronNext body busy fuel next (wake + busy tick) (tick + 1)

/-- `HeartbeatScheduler.start`: one independent loop per configured task,
each seeded with the same start clock. -/
def runScheduler (tasks : List HeartbeatTask) (cronOf : HeartbeatTask → Nat → Nat)
    (bodyOf : HeartbeatTask → Nat → Except String String)
    (busyOf : HeartbeatTask → Nat → Nat) (fuel start : Nat) : List (List TickEntry) :=
  tasks.map (fun ht => runLoop (cronOf ht) (bodyOf ht) (busyOf ht) fuel start start 0)

/-- The schedule-relevant components of a tick, excluding the firing's
result. -/
def tickTiming (e : TickEntry) : Nat × Nat × Nat := (e.nowAt, e.next, e.wake)

/-- The successive values of a cron iterator advanced `fuel` times from
`pos`. -/
def cronIterates (cronNext : Nat → Nat) : Nat → Nat → List Nat
  | 0, _ => []
  | fuel + 1, pos => cronNext pos :: cronIterates cronNext fuel (cronNext pos)

/-- A concrete every-60-ticks cron table: the next multiple of 60 strictly
after `t`. -/
def cron60 (t : Nat) : Nat := (t / 60 + 1) * 60

/-! ### Order theory for the Python string comparison -/

theorem strLeb_refl (l : List Char) : strLeb l l = true := by
  induction l with
  | nil => rfl
  | cons a as ih => simp [strLeb, ih]

theorem strLeb_total (as bs : List Char) : strLeb as bs = true ∨ strLeb bs as = true := by
  induction as generalizing bs with
  | nil => left; rfl
  | cons a as ih =>
      cases bs with
      | nil => right; rfl
      | cons b bs =>
          rcases lt_trichotomy a b with h | h | h
          · left; simp [strLeb, h]
          · subst h
            rcases ih bs with h' | h'
            · left; simp [strLeb, lt_irrefl, h']
            · right; simp [strLeb, lt_irrefl, h']
          · right; simp [strLeb, h]

theorem strLeb_trans (as bs cs : List Char) (h1 : strLeb as bs = true)
    (h2 : strLeb bs cs = true) : strLeb as cs = true := by
  induction as generalizing bs cs with
  | nil => rfl
  | cons a as ih =>
      cases bs with
      | nil => simp [strLeb] at h1
      | cons b bs =>
          cases cs with
          | nil => simp [strLeb] at h2
          | cons c cs =>
              by_cases hab : a < b
              · by_cases hbc : b < c
                · simp [strLeb, lt_trans hab hbc]
                · by_cases hbc' : b = c
                  · subst hbc'; simp [strLeb, hab]
                  · simp [strLeb, hbc, hbc'] at h2
              · by_cases hab' : a = b
                · subst hab'
                  by_cases hac : a < c
                  · simp [strLeb, hac]
                  · by_cases hac' : a = c
                    · subst hac'
                      simp [strLeb, lt_irrefl] at h1 h2 ⊢
                      exact ih bs cs h1 h2
                    · simp [strLeb, hac, hac'] at h2
                · simp [strLeb, hab, hab'] at h1

theorem strLeb_antisymm (as bs : List Char) (h1 : strLeb as bs = true)
    (h2 : strLeb bs as = true) : as = bs := by
  induction as generalizing bs with
  | nil =>
      cases bs with
      | nil => rfl
      | cons b bs => simp [strLeb] at h2
  | cons a as ih =>
      cases bs with
      | nil => simp [strLeb] at h1
      | cons b bs =>
          by_cases hab : a < b
          · simp [strLeb, hab.asymm, hab.ne'] at h2
          · by_cases hab' : a = b
            · subst hab'
              simp [strLeb, lt_irrefl] at h1 h2
              rw [ih bs h1 h2]
            · simp [strLeb, hab, hab'] at h1

instance : IsRefl String pyLe := ⟨fun s => strLeb_refl s.data⟩

instance : IsTotal String pyLe := ⟨fun s t => strLeb_total s.data t.data⟩

instance : IsTrans String pyLe := ⟨fun s t u => strLeb_trans s.data t.data u.data⟩

instance : IsAntisymm String pyLe :=
  ⟨fun s t h1 h2 => by
    cases s with
    | mk d1 =>
        cases t with
        | mk d2 => exact congrArg String.mk (strLeb_antisymm d1 d2 h1 h2)⟩

/-! ### Leader election lemmas -/

theorem pySorted_perm (l : List String) : (pySorted l).Perm l :=
  List.perm_insertionSort pyLe l

theorem pySorted_sorted (l : List String) : List.Sorted pyLe (pySorted l) :=
  List.sorted_insertionSort pyLe l

/-- The elected leader is a member of a non-empty name list and is minimal
for the Python string ordering. -/
theorem electLeader_min {names : List String} (h : names ≠ []) :
    electLeader names ∈ names ∧ ∀ x ∈ names, pyLe (electLeader names) x := by
  have hperm := pySorted_perm names
  have hsort := pySorted_sorted names
  have hne : pySorted names ≠ [] := by
    intro h0
    rw [h0] at hperm
    exact h hperm.symm.eq_nil
  obtain ⟨a, t, he⟩ : ∃ a t, pySorted names = a :: t := by
    cases hq : pySorted names with
    | nil => exact absurd hq hne
    | cons a t => exact ⟨a, t, rfl⟩
  have hel : electLeader names = a := by unfold electLeader; rw [he]; rfl
  constructor
  · rw [hel]
    exact hperm.subset (by rw [he]; exact List.mem_cons_self a t)
  · intro x hx
    have hx' : x ∈ pySorted names := hperm.symm.subset hx
    rw [he, List.mem_cons] at hx'
    rw [hel]
    rcases hx' with rfl | hx2
    · exact refl_of pyLe _
    · rw [he] at hsort
      exact List.rel_of_sorted_cons hsort x hx2

/-- Leader election depends only on the multiset of names. -/
theorem electLeader_perm {n1 n2 : List String} (h : n1.Perm n2) :
    electLeader n1 = electLeader n2 := by
  have e : pySorted n1 = pySorted n2 :=
    List.eq_of_perm_of_sorted
      ((pySorted_perm n1).trans (h.trans (pySorted_perm n2).symm))
      (pySorted_sorted n1) (pySorted_sorted n2)
  unfold electLeader
  rw [e]

/-! ### Dictionary lemmas -/

theorem dictLookup_dictPop_of_none {m : List (String × α)} {k k' : String}
    (h : dictLookup m k = none) : dictLookup (dictPop m k') k = none := by
  induction m with
  | nil => simpa [dictPop] using h
  | cons kv rest ih =>
      simp only [dictLookup] at h
      by_cases hk : kv.1 = k
      · simp [hk] at h
      · simp only [hk, if_false] at h
        simp only [dictPop]
        by_cases hk' : kv.1 = k'
        · simp [hk', h]
        · simp [hk', dictLookup, hk, ih h]

theorem dictLookup_dictInsert_self (m : List (String × α)) (k : String) (v : α) :
    dictLookup (dictInsert m k v) k = some v := by
  induction m with
  | nil => simp [dictInsert, dictLookup]
  | cons kv rest ih =>
      simp only [dictInsert]
      by_cases hk : kv.1 = k
      · simp [hk, dictLookup]
      · simp [hk, dictLookup, ih]

theorem dictLookup_dictInsert_of_ne {m : List (String × α)} {k k' : String} (v : α)
    (hne : k' ≠ k) (h : dictLookup m k = none) :
    dictLookup (dictInsert m k' v) k = none := by
  induction m with
  | nil => simp [dictInsert, dictLookup, hne]
  | cons kv rest ih =>
      simp only [dictLookup] at h
      by_cases hk : kv.1 = k
      · simp [hk] at h
      · simp only [hk, if_false] at h
        simp only [dictInsert]
        by_cases hk' : kv.1 = k'
        · simp [hk', dictLookup, hne, hk, h]
        · simp [hk', dictLookup, hk, ih h]

/-- One discovery event preserves absence of the local node's name. -/
theorem handleStateChange_preserves_no_self {nodeName : String} {m : Registry}
    (h : dictLookup m nodeName = none) (e : ServiceEvent) :
    dictLookup (handleStateChange nodeName m e) nodeName = none := by
  cases e with
  | removed name => exact dictLookup_dictPop_of_none h
  | presence name addresses port props =>
      cases addresses with
      | nil => simpa [handleStateChange] using h
      | cons host rest =>
          simp only [handleStateChange]
          by_cases hself : stripSvc name = nodeName
          · simpa [hself] using h
          · simpa [hself] using
              dictLookup_dictInsert_of_ne (peerOfAnnouncement (stripSvc name) host port props)
                hself h

/-- C1: starting from the empty peer map, no sequence of discovery
presence/withdrawal events ever produces an entry keyed by the local node's
effective name — a presence announcement whose suffix-stripped name equals
the local node's name is filtered out before the map is updated. -/
theorem registry_never_contains_self (nodeName : String) (es : List ServiceEvent) :
    dictLookup (processEvents nodeName [] es) nodeName = none := by
  suffices h : ∀ (m : Registry), dictLookup m nodeName = none →
      dictLookup (processEvents nodeName m es) nodeName = none by
    exact h [] rfl
  induction es with
  | nil => intro m hm; simpa [processEvents] using hm
  | cons e rest ih =>
      intro m hm
      have h1 := handleStateChange_preserves_no_self hm e
      simpa [processEvents, List.foldl_cons] using ih _ h1

/-- C3: processing a presence announcement for a name already present in
the registry replaces the stored entry wholesale — the resulting entry is
built only from the new announcement's resolved host, port and properties,
with no dependence on the previously stored `PeerInfo`. -/
theorem presence_replaces_wholesale (nodeName : String) (m : Registry)
    (name host : String) (rest : List String) (port : Option Nat)
    (props : List (String × String)) (old : PeerInfo)
    (hprev : dictLookup m (stripSvc name) = some old)
    (hself : stripSvc name ≠ nodeName) :
    dictLookup (handleStateChange nodeName m (.presence name (host :: rest) port props))
        (stripSvc name)
      = some (peerOfAnnouncement (stripSvc name) host port props) := by
  simp only [handleStateChange, hself, if_false]
  exact dictLookup_dictInsert_self m (stripSvc name) _

/-! ### Fan-out and response collection lemmas -/

theorem mem_dictInsert {m : List (String × α)} {k : String} {v : α} {x : String × α}
    (h : x ∈ dictInsert m k v) : x ∈ m ∨ x = (k, v) := by
  induction m with
  | nil =>
      simp only [dictInsert, List.mem_singleton] at h
      exact Or.inr h
  | cons kv rest ih =>
      simp only [dictInsert] at h
      by_cases hk : kv.1 = k
      · rw [if_pos hk, List.mem_cons] at h
        rcases h with h | h
        · exact Or.inr h
        · exact Or.inl (List.mem_cons_of_mem _ h)
      · rw [if_neg hk, List.mem_cons] at h
        rcases h with h | h
        · exact Or.inl (h ▸ List.mem_cons_self _ _)
        · rcases ih h with h2 | h2
          · exact Or.inl (List.mem_cons_of_mem _ h2)
          · exact Or.inr h2

theorem collect_foldl_mem {results : List (String × Option String)} {n r : String} :
    ∀ acc, (n, r) ∈ results.foldl collectStep acc → (n, r) ∈ acc ∨ (n, some r) ∈ results := by
  induction results with
  | nil => intro acc h; exact Or.inl h
  | cons x rs ih =>
      intro acc h
      obtain ⟨x1, x2⟩ := x
      rw [List.foldl_cons] at h
      rcases ih _ h with h2 | h2
      · cases x2 with
        | some v =>
            simp only [collectStep] at h2
            rcases mem_dictInsert h2 with h3 | h3
            · exact Or.inl h3
            · right
              have hn : n = x1 := congrArg Prod.fst h3
              have hr : r = v := congrArg Prod.snd h3
              rw [hn, hr]
              exact List.mem_cons_self _ _
        | none =>
            simp only [collectStep] at h2
            exact Or.inl h2
      · exact Or.inr (List.mem_cons_of_mem _ h2)

theorem collect_all_none {results : List (String × Option String)}
    (h : ∀ x ∈ results, x.2 = none) : ∀ acc, results.foldl collectStep acc = acc := by
  induction results with
  | nil => intro acc; rfl
  | cons x rs ih =>
      intro acc
      rw [List.foldl_cons]
      have hx : x.2 = none := h x (List.mem_cons_self _ _)
      have hstep : collectStep acc x = acc := by unfold collectStep; rw [hx]
      rw [hstep]
      exact ih (fun y hy => h y (List.mem_cons_of_mem _ hy)) acc

theorem fanOut_all_none {peers : List PeerInfo} {ask : PeerInfo → Except String String}
    (h : ∀ p ∈ peers, ∀ r, ask p ≠ Except.ok r) :
    ∀ x ∈ fanOut peers ask, x.2 = none := by
  intro x hx
  unfold fanOut at hx
  rw [List.mem_map] at hx
  obtain ⟨p, hp, rfl⟩ := hx
  cases hask : ask p with
  | ok v => exact absurd hask (h p hp v)
  | error e => simp [hask]

theorem fanOut_mem_some {peers : List PeerInfo} {ask : PeerInfo → Except String String}
    {n r : String} (h : (n, some r) ∈ fanOut peers ask) :
    ∃ p, p ∈ peers ∧ p.name = n ∧ ask p = Except.ok r := by
  unfold fanOut at h
  rw [List.mem_map] at h
  obtain ⟨p, hp, he⟩ := h
  cases hask : ask p with
  | ok v =>
      rw [hask] at he
      have hn : p.name = n := congrArg Prod.fst he
      have hv : some v = some r := congrArg Prod.snd he
      exact ⟨p, hp, hn, by rw [hask, Option.some_inj.mp hv]⟩
  | error e =>
      rw [hask] at he
      exact absurd (congrArg Prod.snd he) (by simp)

/-- Witness for C3 at a concrete registry holding a stale entry for
`alice`: the re-announcement overwrites host, port, model and skills. -/
theorem presence_replaces_wholesale_witness :
    dictLookup
        (handleStateChange "bob"
          [("alice", ⟨"alice", "10.0.0.1", 1111, "oldmodel", ["oldskill"]⟩)]
          (.presence ("alice." ++ SERVICE_TYPE) ["10.0.0.2"] (some 2222)
            [("model", "llama3"), ("skills", "math, code")]))
        (stripSvc ("alice." ++ SERVICE_TYPE))
      = some ⟨"alice", "10.0.0.2", 2222, "llama3", ["math", "code"]⟩ := by
  have h := presence_replaces_wholesale "bob"
    [("alice", ⟨"alice", "10.0.0.1", 1111, "oldmodel", ["oldskill"]⟩)]
    ("alice." ++ SERVICE_TYPE) "10.0.0.2" [] (some 2222)
    [("model", "llama3"), ("skills", "math, code")]
    ⟨"alice", "10.0.0.1", 1111, "oldmodel", ["oldskill"]⟩
    (by decide) (by decide)
  have e : peerOfAnnouncement (stripSvc ("alice." ++ SERVICE_TYPE)) "10.0.0.2" (some 2222)
      [("model", "llama3"), ("skills", "math, code")]
      = (⟨"alice", "10.0.0.2", 2222, "llama3", ["math", "code"]⟩ : PeerInfo) := by decide
  rw [e] at h
  exact h

/-- C2: for every non-empty set of successful responders, the elected
leader is the lexicographically smallest responder name under the
case-sensitive code-point string ordering, the choice is invariant under
the arrival order of replies, and any synthesis outcome of the broadcast
carries a leader that is minimal among the collected responder names. -/
theorem leader_is_lex_min (names names2 : List String) :
    (names.Perm names2 → electLeader names = electLeader names2)
    ∧ (names ≠ [] → electLeader names ∈ names ∧ ∀ x ∈ names, pyLe (electLeader names) x)
    ∧ (∀ (peers : List PeerInfo) (ask : PeerInfo → Except String String)
        (message ld : String) (resp : List (String × String)) (prompt : String),
        broadcastChat peers ask message = Outcome.synth ld resp prompt →
        ld ∈ resp.map Prod.fst ∧ ∀ x ∈ resp.map Prod.fst, pyLe ld x) := by
  refine ⟨electLeader_perm, electLeader_min, ?_⟩
  intro peers ask message ld resp prompt h
  unfold broadcastChat at h
  by_cases hp : peers.isEmpty
  · simp [hp] at h
  · simp only [hp, Bool.false_eq_true, if_false] at h
    by_cases h0 : collectResponses (fanOut peers ask) = []
    · simp [h0] at h
    · by_cases h1 : (collectResponses (fanOut peers ask)).length = 1
      · simp [h0, h1] at h
      · simp only [h0, h1, if_false] at h
        rw [Outcome.synth.injEq] at h
        obtain ⟨hld, hresp, -⟩ := h
        have hmapne : (collectResponses (fanOut peers ask)).map Prod.fst ≠ [] := by
          intro hmap
          exact h0 (List.map_eq_nil_iff.mp hmap)
        obtain ⟨hmem, hmin⟩ := electLeader_min hmapne
        have hperm : (resp.map Prod.fst).Perm
            ((collectResponses (fanOut peers ask)).map Prod.fst) := by
          rw [← hresp]
          exact (List.perm_insertionSort pairLe _).map Prod.fst
        rw [hld] at hmem hmin
        constructor
        · exact hperm.mem_iff.mpr hmem
        · intro x hx
          exact hmin x (hperm.subset hx)

/-- Witness for C2: with responders `{"bob", "ALICE", "carol"}` the leader
is `"ALICE"`, independently of arrival order. -/
theorem leader_is_lex_min_witness :
    electLeader ["bob", "ALICE", "carol"] = electLeader ["carol", "ALICE", "bob"]
    ∧ electLeader ["bob", "ALICE", "carol"] = "ALICE"
    ∧ "ALICE" ∈ ["bob", "ALICE", "carol"] :=
  ⟨(leader_is_lex_min ["bob", "ALICE", "carol"] ["carol", "ALICE", "bob"]).1 (by decide),
    by decide, by decide⟩

/-- C4: a broadcast fan-out with exactly one successful responder returns
that responder's reply verbatim as the final answer and issues no
leader-synthesis chat call. -/
theorem single_responder_verbatim (peers : List PeerInfo)
    (ask : PeerInfo → Except String String) (message n r : String)
    (h : collectResponses (fanOut peers ask) = [(n, r)]) :
    broadcastChat peers ask message = Outcome.single n r
    ∧ synthCalls (broadcastChat peers ask message) = 0 := by
  have hp : peers.isEmpty = false := by
    cases peers with
    | nil => simp [fanOut, collectResponses] at h
    | cons p ps => rfl
  have hb : broadcastChat peers ask message = Outcome.single n r := by
    unfold broadcastChat
    simp [hp, h]
  exact ⟨hb, by rw [hb]; rfl⟩

/-- Witness for C4: two peers, one replies, one errors — the single reply
is returned verbatim. -/
theorem single_responder_verbatim_witness :
    broadcastChat [⟨"alice", "h1", 1, "m", []⟩, ⟨"bob", "h2", 2, "m", []⟩]
      (fun p => if p.name = "alice" then Except.ok "hi" else Except.error "down") "q"
      = Outcome.single "alice" "hi"
    ∧ synthCalls
        (broadcastChat [⟨"alice", "h1", 1, "m", []⟩, ⟨"bob", "h2", 2, "m", []⟩]
          (fun p => if p.name = "alice" then Except.ok "hi" else Except.error "down") "q")
      = 0 :=
  single_responder_verbatim _ _ "q" "alice" "hi" (by decide)

/-- C5: a broadcast fan-out in which every peer fails yields the distinct
all-peers-failed outcome and returns normally (the embedding is a total
function into `Outcome`); each per-peer error merely excludes that peer, so
any entry of the collected result set comes from a peer whose chat call
succeeded. -/
theorem all_failed_outcome (peers : List PeerInfo) (ask : PeerInfo → Except String String)
    (message : String) (hne : peers ≠ [])
    (hall : ∀ p ∈ peers, ∀ r, ask p ≠ Except.ok r) :
    broadcastChat peers ask message = Outcome.allFailed
    ∧ ∀ (ask2 : PeerInfo → Except String String) (n r : String),
        (n, r) ∈ collectResponses (fanOut peers ask2) →
        ∃ p, p ∈ peers ∧ p.name = n ∧ ask2 p = Except.ok r := by
  constructor
  · have hcollect : collectResponses (fanOut peers ask) = [] :=
      collect_all_none (fanOut_all_none hall) []
    have hp : peers.isEmpty = false := by
      cases peers with
      | nil => exact absurd rfl hne
      | cons p ps => rfl
    unfold broadcastChat
    simp [hp, hcollect]
  · intro ask2 n r h
    unfold collectResponses at h
    rcases collect_foldl_mem [] h with h2 | h2
    · simp at h2
    · exact fanOut_mem_some h2

/-- Witness for C5: a single peer whose chat call raises — the outcome is
the all-failed report. -/
theorem all_failed_outcome_witness :
    broadcastChat [⟨"alice", "h1", 1, "m", []⟩] (fun _ => Except.error "boom") "q"
      = Outcome.allFailed :=
  (all_failed_outcome [⟨"alice", "h1", 1, "m", []⟩] (fun _ => Except.error "boom") "q"
    (List.cons_ne_nil _ _)
    (fun _ _ _ h => Except.noConfusion h)).1

/-- C9: peer-name resolution tries an exact registry key first; failing
that, exactly one prefix match resolves to that peer, while zero or several
prefix matches resolve to no peer. -/
theorem resolve_peer_rule (peers : Registry) (name : String) :
    (∀ p, dictLookup peers name = some p → resolvePeer peers name = some p)
    ∧ (∀ k p, dictLookup peers name = none →
        peers.filter (fun np => pyStartsWith np.1 name) = [(k, p)] →
        resolvePeer peers name = some p)
    ∧ (dictLookup peers name = none →
        (peers.filter (fun np => pyStartsWith np.1 name)).length ≠ 1 →
        resolvePeer peers name = none) := by
  refine ⟨?_, ?_, ?_⟩
  · intro p h
    unfold resolvePeer
    rw [h]
  · intro k p h hf
    unfold resolvePeer
    rw [h]
    simp [hf]
  · intro h hlen
    unfold resolvePeer
    rw [h]
    simp only [List.length_map]
    rw [if_neg hlen]

/-- Witness for C9: exact match wins, a unique prefix match resolves, an
ambiguous prefix resolves to no peer. -/
theorem resolve_peer_rule_witness :
    resolvePeer [("alpha", ⟨"alpha", "h1", 1, "", []⟩), ("beta", ⟨"beta", "h2", 2, "", []⟩)]
        "beta" = some ⟨"beta", "h2", 2, "", []⟩
    ∧ resolvePeer [("alpha", ⟨"alpha", "h1", 1, "", []⟩), ("beta", ⟨"beta", "h2", 2, "", []⟩)]
        "al" = some ⟨"alpha", "h1", 1, "", []⟩
    ∧ resolvePeer [("alpha", ⟨"alpha", "h1", 1, "", []⟩), ("alpine", ⟨"alpine", "h3", 3, "", []⟩)]
        "al" = none :=
  ⟨(resolve_peer_rule _ "beta").1 _ (by decide),
    (resolve_peer_rule _ "al").2.1 "alpha" _ (by decide) (by decide),
    (resolve_peer_rule _ "al").2.2 (by decide) (by decide)⟩

/-! ### Executor bounds -/

theorem truncOut_length_le (s : String) : (truncOut s).length ≤ MAX_OUTPUT_BYTES := by
  show (s.data.take MAX_OUTPUT_BYTES).length ≤ MAX_OUTPUT_BYTES
  rw [List.length_take]
  exact min_le_left _ _

theorem output_length_le (r : ExecResult) :
    r.output.length ≤ r.stdout.length + r.stderr.length + 17 := by
  unfold ExecResult.output
  by_cases h : r.ok
  · simp only [h, if_true]
    omega
  · simp only [h, if_false, Bool.false_eq_true]
    rw [String.length_append, String.length_append, String.length_append]
    have h8 : ("STDERR:\n" : String).length = 8 := by decide
    have h9 : ("\nSTDOUT:\n" : String).length = 9 := by decide
    omega

/-- Counterexample to C6 as stated: a failed command whose two streams each
fill the 64 KiB cap yields a combined output text strictly longer than the
cap (the failure format concatenates both capped streams). -/
theorem exec_output_cap_counterexample :
    MAX_OUTPUT_BYTES <
      (run_bash_default (ProcOutcome.completed (some 1) cappedStream cappedStream)).output.length := by
  have htrunc : truncOut cappedStream = cappedStream := by
    unfold truncOut cappedStream
    rw [show (String.mk (List.replicate MAX_OUTPUT_BYTES 'a')).data
        = List.replicate MAX_OUTPUT_BYTES 'a' from rfl]
    rw [List.take_replicate, min_self]
  have hlen : cappedStream.length = MAX_OUTPUT_BYTES := by
    unfold cappedStream
    rw [show (String.mk (List.replicate MAX_OUTPUT_BYTES 'a')).length
        = (List.replicate MAX_OUTPUT_BYTES 'a').length from rfl]
    exact List.length_replicate _ _
  have hout : (run_bash_default (ProcOutcome.completed (some 1) cappedStream cappedStream)).output
      = "STDERR:\n" ++ cappedStream ++ "\nSTDOUT:\n" ++ cappedStream := by
    unfold run_bash_default run_bash ExecResult.output
    simp [ExecResult.ok, htrunc]
  rw [hout, String.length_append, String.length_append, String.length_append, hlen]
  have h8 : ("STDERR:\n" : String).length = 8 := by decide
  have h9 : ("\nSTDOUT:\n" : String).length = 9 := by decide
  omega

/-- C6 (amended): every exec invocation runs under the fixed default
timeout `TIMEOUT_SECONDS = 30` seconds and each captured stream is
truncated to the fixed `MAX_OUTPUT_BYTES = 64 KiB` cap; the combined
output text can exceed the cap in the failure case, but never exceeds
twice the cap plus the 17 characters of the failure framing. -/
theorem exec_caps_amended :
    TIMEOUT_SECONDS = 30
    ∧ MAX_OUTPUT_BYTES = 65536
    ∧ ∀ proc : ProcOutcome,
        (run_bash_default proc).stdout.length ≤ MAX_OUTPUT_BYTES
        ∧ (run_bash_default proc).stderr.length ≤ MAX_OUTPUT_BYTES
        ∧ (run_bash_default proc).output.length ≤ 2 * MAX_OUTPUT_BYTES + 17 := by
  refine ⟨rfl, rfl, ?_⟩
  intro proc
  cases proc with
  | timedOut => exact ⟨by decide, by decide, by decide⟩
  | completed rc out err =>
      have hs : (run_bash_default (ProcOutcome.completed rc out err)).stdout.length
          ≤ MAX_OUTPUT_BYTES := truncOut_length_le out
      have he : (run_bash_default (ProcOutcome.completed rc out err)).stderr.length
          ≤ MAX_OUTPUT_BYTES := truncOut_length_le err
      have ho := output_length_le (run_bash_default (ProcOutcome.completed rc out err))
      exact ⟨hs, he, by omega⟩

/-! ### Heartbeat scheduler theorems -/

/-- C7: a firing whose completion-provider call (or broadcast) raises is
caught, the loop records the failure and still proceeds through all its
scheduled ticks (trace length equals the fuel for any body oracle), the
schedule timing is unaffected by which firings fail, and one task's trace
in the scheduler depends only on that task's own body oracle. -/
theorem heartbeat_failures_isolated (cronNext : Nat → Nat)
    (body body2 : Nat → Except String String) (busy : Nat → Nat) (fuel pos now tick : Nat) :
    (runLoop cronNext body busy fuel pos now tick).length = fuel
    ∧ (runLoop cronNext body busy fuel pos now tick).map tickTiming
        = (runLoop cronNext body2 busy fuel pos now tick).map tickTiming
    ∧ (∀ (tasks : List HeartbeatTask) (cronOf : HeartbeatTask → Nat → Nat)
        (bodyOf bodyOf2 : HeartbeatTask → Nat → Except String String)
        (busyOf : HeartbeatTask → Nat → Nat) (fuel2 start i : Nat),
        (∀ ht, tasks[i]? = some ht → bodyOf ht = bodyOf2 ht) →
        (runScheduler tasks cronOf bodyOf busyOf fuel2 start)[i]?
          = (runScheduler tasks cronOf bodyOf2 busyOf fuel2 start)[i]?) := by
  refine ⟨?_, ?_, ?_⟩
  · induction fuel generalizing pos now tick with
    | zero => rfl
    | succ f ih => simp [runLoop, ih]
  · induction fuel generalizing pos now tick with
    | zero => rfl
    | succ f ih => simp [runLoop, tickTiming, ih]
  · intro tasks cronOf bodyOf bodyOf2 busyOf fuel2 start i hagree
    simp only [runScheduler, List.getElem?_map]
    cases htask : tasks[i]? with
    | none => rfl
    | some ht => simp [hagree ht htask]

/-- Witness for C7: a loop whose body always raises still runs all three
ticks, and in a two-task scheduler the first task's trace is unchanged
when only the second task's oracle differs. -/
theorem heartbeat_failures_isolated_witness :
    (runLoop (fun t => t + 60) (fun _ => Except.error "down") (fun _ => 0) 3 0 0 0).length = 3
    ∧ (runScheduler [⟨"a", "* * * * *", "p", false⟩, ⟨"b", "* * * * *", "q", false⟩]
          (fun _ t => t + 60)
          (fun ht _ => if ht.name = "a" then Except.error "x" else Except.ok "r")
          (fun _ _ => 0) 2 0)[0]?
      = (runScheduler [⟨"a", "* * * * *", "p", false⟩, ⟨"b", "* * * * *", "q", false⟩]
          (fun _ t => t + 60)
          (fun ht _ => if ht.name = "a" then Except.error "x" else Except.ok "s")
          (fun _ _ => 0) 2 0)[0]? := by
  constructor
  · exact (heartbeat_failures_isolated (fun t => t + 60) (fun _ => Except.error "down")
      (fun _ => Except.error "down") (fun _ => 0) 3 0 0 0).1
  · refine (heartbeat_failures_isolated (fun t => t + 60) (fun _ => Except.error "down")
      (fun _ => Except.error "down") (fun _ => 0) 3 0 0 0).2.2 _ _ _ _ _ 2 0 0 ?_
    intro ht h
    simp only [List.getElem?_cons_zero, Option.some_inj] at h
    subst h
    funext t
    rfl

/-- Counterexample to C8 as stated: with an every-60 cron table and a
firing that takes 150 time units, the second iteration computes its next
fire time while the clock reads 210, yet the computed value is 120 — the
iterator's successor of the previous scheduled fire 60 — and not
`cron60 210 = 240`, the value the cron expression yields relative to the
current time. -/
theorem next_fire_not_from_now_counterexample :
    (runLoop cron60 (fun _ => Except.ok "r") (fun _ => 150) 2 0 0 0).map
        (fun e => (e.nowAt, e.next))
      = [(0, 60), (210, 120)]
    ∧ cron60 210 = 240
    ∧ (120 : Nat) ≠ 240 := by decide

/-- C8 (amended): on each tick the next fire time is obtained by advancing
the cron iterator from the previously scheduled fire time (seeded with the
loop start position) — independent of the clock and of firing results —
while the suspension is measured from the current time at the moment of
computation: the loop sleeps exactly until `max now next`, i.e. not at all
when the scheduled time has already passed. -/
theorem next_fire_from_iterator (cronNext : Nat → Nat)
    (body : Nat → Except String String) (busy : Nat → Nat) (fuel pos now tick : Nat) :
    (runLoop cronNext body busy fuel pos now tick).map (fun e => e.next)
      = cronIterates cronNext fuel pos
    ∧ ∀ e ∈ runLoop cronNext body busy fuel pos now tick, e.wake = max e.nowAt e.next := by
  induction fuel generalizing pos now tick with
  | zero => exact ⟨rfl, by intro e he; simp [runLoop] at he⟩
  | succ f ih =>
      constructor
      · simp [runLoop, cronIterates, (ih _ _ _).1]
      · intro e he
        simp only [runLoop, List.mem_cons] at he
        rcases he with rfl | he
        · rfl
        · exact (ih _ _ _).2 e he

/-- Witness for C8 (amended): a two-tick run whose next-fire times are the
iterator values from the seed 5, with the first tick sleeping from clock 0
to the scheduled time 65. -/
theorem next_fire_from_iterator_witness :
    (runLoop (fun t => t + 60) (fun _ => Except.ok "r") (fun _ => 10) 2 5 0 0).map
        (fun e => e.next)
      = cronIterates (fun t => t + 60) 2 5
    ∧ TickEntry.wake ⟨0, 65, 65, TickResult.ok "r"⟩
      = max (TickEntry.nowAt ⟨0, 65, 65, TickResult.ok "r"⟩)
          (TickEntry.next ⟨0, 65, 65, TickResult.ok "r"⟩) :=
  ⟨(next_fire_from_iterator (fun t => t + 60) (fun _ => Except.ok "r") (fun _ => 10) 2 5 0 0).1,
    (next_fire_from_iterator (fun t => t + 60) (fun _ => Except.ok "r") (fun _ => 10) 2 5 0 0).2
      ⟨0, 65, 65, TickResult.ok "r"⟩ (by decide)⟩

/-! ### Exec handler defaults -/

/-- C10: the server-side exec handler defaults missing request fields
rather than erroring — an absent `code` becomes the empty string, an
absent `from` becomes the sender id `"unknown"`, and any language tag
other than exactly `"python"` (absent or unrecognized) dispatches to the
bash executor. -/
theorem exec_defaults (l c s : Option String) (str : String) :
    (handleExec ⟨l, none, s⟩).code = ""
    ∧ (handleExec ⟨l, c, none⟩).sender = "unknown"
    ∧ (handleExec ⟨none, c, s⟩).chosen = ExecLang.bash
    ∧ (str ≠ "python" → (handleExec ⟨some str, c, s⟩).chosen = ExecLang.bash)
    ∧ (handleExec ⟨some "python", c, s⟩).chosen = ExecLang.python := by
  refine ⟨rfl, rfl, ?_, ?_, ?_⟩
  · simp [handleExec]
  · intro h
    simp [handleExec, h]
  · simp [handleExec]

/-- Witness for C10 at a fully concrete request body: the `bash` tag runs
bash, and absent `code`/`from` fields default. -/
theorem exec_defaults_witness :
    (handleExec ⟨some "bash", none, none⟩).chosen = ExecLang.bash
    ∧ (handleExec ⟨some "bash", none, none⟩).code = ""
    ∧ (handleExec ⟨some "bash", none, none⟩).sender = "unknown" :=
  ⟨(exec_defaults (some "bash") none none "bash").2.2.2.1 (by decide),
    (exec_defaults (some "bash") none none "bash").1,
    (exec_defaults (some "bash") none none "bash").2.1⟩

end Mesh
